import Mathlib

/-!
Verification development for the TON news bot (`bot.py`).

The Python source is shallowly embedded below.  Strings are modelled as
`String` / `List Char` (Python `str` code points); Python ASCII-range
`str.lower`, `str.split()` whitespace and `str.replace` are modelled
exactly on the ASCII fragment the program manipulates.  Machine-level
hashing (`hashlib.md5`) is implemented in full over `Nat` with explicit
`% 2^32` arithmetic.  File persistence is modelled by carrying the file
contents in the state; `json.dump` / `json.load` of the string lists and
the string-to-string map are modelled by an explicit renderer and parser
for that JSON fragment.
-/

namespace TonBot

/-- ASCII whitespace recognised by Python `str.split()` (no-argument form). -/
def pyIsSpace (c : Char) : Bool :=
  c = ' ' || c = '\t' || c = '\n' || c = '\r' || c = '\x0b' || c = '\x0c'

/-- `beginsWith l p` : `p` is a leading segment of `l`. -/
def beginsWith : List Char → List Char → Bool
  | _, [] => true
  | [], _ :: _ => false
  | c :: cs, p :: ps => c = p && beginsWith cs ps

/-- Worker for Python `str.replace(pat, rep)` with nonempty pattern
`p :: ps`, left-to-right and non-overlapping.  When `skip > 0` the
scanner is inside a matched occurrence and discards that many
characters; on a fresh match it emits `rep`, consumes the head `p`, and
enters skip mode for the remaining `ps.length` pattern characters. -/
def replAux (p : Char) (ps rep : List Char) : List Char → Nat → List Char
  | [], _ => []
  | c :: rest, skip =>
    match skip with
    | s + 1 => replAux p ps rep rest s
    | 0 =>
      if beginsWith (c :: rest) (p :: ps) then
        rep ++ replAux p ps rep rest ps.length
      else c :: replAux p ps rep rest 0

/-- Python `str.replace(pat, rep)` for a nonempty pattern `p :: ps`. -/
def replaceFrom (p : Char) (ps rep : List Char) (l : List Char) : List Char :=
  replAux p ps rep l 0

/-- Python `str.replace` with `String` pattern/replacement.  All call
sites in the source use nonempty literal patterns; the empty-pattern
case is unreachable and returns the input. -/
def pyReplace (l : List Char) (pat rep : String) : List Char :=
  match pat.data with
  | [] => l
  | p :: ps => replaceFrom p ps rep.data l

/-- Python `needle in hay` on strings (substring test). -/
def hasSubstr (needle : List Char) : List Char → Bool
  | [] => needle.isEmpty
  | c :: rest => beginsWith (c :: rest) needle || hasSubstr needle rest

/-- Python `str.lower()` (ASCII fragment). -/
def pyLower (l : List Char) : List Char := l.map Char.toLower

/-- Worker for Python `str.split()`: `cur` holds the characters of the
current word, most recent first. -/
def splitWsAux : List Char → List Char → List (List Char)
  | [], cur => if cur = [] then [] else [cur.reverse]
  | c :: rest, cur =>
    if pyIsSpace c then
      if cur = [] then splitWsAux rest []
      else cur.reverse :: splitWsAux rest []
    else splitWsAux rest (c :: cur)

/-- Python `str.split()` with no argument: split on whitespace runs,
discarding empty pieces. -/
def splitWs (l : List Char) : List (List Char) := splitWsAux l []

/-- Python `sep.join(tokens)` for a one-character separator. -/
def joinSep (sep : Char) : List (List Char) → List Char
  | [] => []
  | [t] => t
  | t :: t2 :: ts => t ++ sep :: joinSep sep (t2 :: ts)

/-- Python `sep.join(pieces)` for a multi-character separator. -/
def joinL (sep : List Char) : List (List Char) → List Char
  | [] => []
  | [t] => t
  | t :: t2 :: ts => t ++ sep ++ joinL sep (t2 :: ts)

/-- `' '.join(text.split())` — collapse whitespace runs, trim ends. -/
def normalizeWs (l : List Char) : List Char := joinSep ' ' (splitWs l)

/-- Scanner for the lazy tag pattern: after the `<` and one non-`<`
character, consume up to the first `>`; an intervening `<` kills the
match (`[^<]` excludes it). -/
def scanTag : List Char → Option (List Char)
  | [] => none
  | c :: rest =>
    if c = '>' then some rest
    else if c = '<' then none
    else scanTag rest

/-- Attempt to match `[^<]+?>` (the part after the `<` of the regex
`<[^<]+?>`): the first character must be a non-`<`, then scan lazily
for the closing `>`.  Returns the remainder after the match. -/
def findTag : List Char → Option (List Char)
  | [] => none
  | c :: rest => if c = '<' then none else scanTag rest

/-- Fuelled worker for tag removal: a successful `findTag` only ever
shortens the input, so `fuel = l.length` suffices; on exhausted fuel the
remainder is returned unchanged (unreachable from `stripTags`). -/
def stripTagsF : Nat → List Char → List Char
  | 0, l => l
  | _, [] => []
  | fuel + 1, c :: rest =>
    if c = '<' then
      match findTag rest with
      | some rest2 => stripTagsF fuel rest2
      | none => c :: stripTagsF fuel rest
    else c :: stripTagsF fuel rest

/-- `re.sub('<[^<]+?>', '', text)`: remove every lazy match of the tag
pattern; on a failed match at a `<`, keep the character and rescan from
the next position. -/
def stripTags (l : List Char) : List Char := stripTagsF l.length l

/-- The fixed entity decodings of `clean_html`, in source order. -/
def decodeEntities (l : List Char) : List Char :=
  let l := pyReplace l "&quot;" "\""
  let l := pyReplace l "&amp;" "&"
  let l := pyReplace l "&lt;" "<"
  let l := pyReplace l "&gt;" ">"
  let l := pyReplace l "&#39;" "'"
  let l := pyReplace l "&nbsp;" " "
  l

/-- `clean_html`: strip tag-like substrings, decode fixed entities,
collapse whitespace.  Falsy (empty) input yields the empty string. -/
def clean_html (s : String) : String :=
  if s.isEmpty then ""
  else ⟨normalizeWs (decodeEntities (stripTags s.data))⟩

/-! ### MD5 (`hashlib.md5(...).hexdigest()`), over `Nat` with explicit
32-bit reduction.  Specification follows RFC 1321. -/

/-- UTF-8 encoding of one code point (Python `str.encode()`). -/
def utf8Bytes (c : Char) : List Nat :=
  let n := c.toNat
  if n < 0x80 then [n]
  else if n < 0x800 then [0xC0 + n / 64, 0x80 + n % 64]
  else if n < 0x10000 then
    [0xE0 + n / 4096, 0x80 + n / 64 % 64, 0x80 + n % 64]
  else
    [0xF0 + n / 262144, 0x80 + n / 4096 % 64, 0x80 + n / 64 % 64, 0x80 + n % 64]

/-- UTF-8 encoding of a string as a byte list. -/
def utf8Encode (l : List Char) : List Nat := (l.map utf8Bytes).flatten

/-- Reduce to a 32-bit word. -/
def w32 (n : Nat) : Nat := n % 4294967296

/-- 32-bit addition. -/
def addw (a b : Nat) : Nat := (a + b) % 4294967296

/-- 32-bit left rotation (`0 < s < 32`, `x < 2^32`). -/
def rotl (x s : Nat) : Nat := (x * 2 ^ s) % 4294967296 + x / 2 ^ (32 - s)

/-- Round functions F, G, H, I of RFC 1321. -/
def mdF (b c d : Nat) : Nat := (b &&& c) ||| ((b ^^^ 4294967295) &&& d)

def mdG (b c d : Nat) : Nat := (d &&& b) ||| ((d ^^^ 4294967295) &&& c)

def mdH (b c d : Nat) : Nat := b ^^^ c ^^^ d

def mdI (b c d : Nat) : Nat := c ^^^ (b ||| (d ^^^ 4294967295))

/-- Sine-derived constants `K[i] = floor(2^32 * |sin(i+1)|)`. -/
def mdK : List Nat := [
  0xd76aa478, 0xe8c7b756, 0x242070db, 0xc1bdceee,
  0xf57c0faf, 0x4787c62a, 0xa8304613, 0xfd469501,
  0x698098d8, 0x8b44f7af, 0xffff5bb1, 0x895cd7be,
  0x6b901122, 0xfd987193, 0xa679438e, 0x49b40821,
  0xf61e2562, 0xc040b340, 0x265e5a51, 0xe9b6c7aa,
  0xd62f105d, 0x02441453, 0xd8a1e681, 0xe7d3fbc8,
  0x21e1cde6, 0xc33707d6, 0xf4d50d87, 0x455a14ed,
  0xa9e3e905, 0xfcefa3f8, 0x676f02d9, 0x8d2a4c8a,
  0xfffa3942, 0x8771f681, 0x6d9d6122, 0xfde5380c,
  0xa4beea44, 0x4bdecfa9, 0xf6bb4b60, 0xbebfbc70,
  0x289b7ec6, 0xeaa127fa, 0xd4ef3085, 0x04881d05,
  0xd9d4d039, 0xe6db99e5, 0x1fa27cf8, 0xc4ac5665,
  0xf4292244, 0x432aff97, 0xab9423a7, 0xfc93a039,
  0x655b59c3, 0x8f0ccc92, 0xffeff47d, 0x85845dd1,
  0x6fa87e4f, 0xfe2ce6e0, 0xa3014314, 0x4e0811a1,
  0xf7537e82, 0xbd3af235, 0x2ad7d2bb, 0xeb86d391]

/-- Per-round left-rotation amounts. -/
def mdS : List Nat := [
  7, 12, 17, 22, 7, 12, 17, 22, 7, 12, 17, 22, 7, 12, 17, 22,
  5, 9, 14, 20, 5, 9, 14, 20, 5, 9, 14, 20, 5, 9, 14, 20,
  4, 11, 16, 23, 4, 11, 16, 23, 4, 11, 16, 23, 4, 11, 16, 23,
  6, 10, 15, 21, 6, 10, 15, 21, 6, 10, 15, 21, 6, 10, 15, 21]

/-- One of the 64 MD5 operations on state `(a, b, c, d)`, with message
words `M`. -/
def md5Op (M : List Nat) (st : Nat × Nat × Nat × Nat) (i : Nat) :
    Nat × Nat × Nat × Nat :=
  let (a, b, c, d) := st
  let fg : Nat × Nat :=
    if i < 16 then (mdF b c d, i)
    else if i < 32 then (mdG b c d, (5 * i + 1) % 16)
    else if i < 48 then (mdH b c d, (3 * i + 5) % 16)
    else (mdI b c d, (7 * i) % 16)
  let t := w32 (a + fg.1 + mdK.getD i 0 + M.getD fg.2 0)
  (d, addw b (rotl t (mdS.getD i 0)), b, c)

/-- Assemble the sixteen little-endian 32-bit message words of one
64-byte chunk. -/
def chunkWords (chunk : List Nat) : List Nat :=
  (List.range 16).map fun j =>
    chunk.getD (4 * j) 0 + 256 * chunk.getD (4 * j + 1) 0 +
      65536 * chunk.getD (4 * j + 2) 0 + 16777216 * chunk.getD (4 * j + 3) 0

/-- Process one 64-byte chunk. -/
def md5Chunk (st : Nat × Nat × Nat × Nat) (chunk : List Nat) :
    Nat × Nat × Nat × Nat :=
  let M := chunkWords chunk
  let r := (List.range 64).foldl (md5Op M) st
  (addw st.1 r.1, addw st.2.1 r.2.1, addw st.2.2.1 r.2.2.1, addw st.2.2.2 r.2.2.2)

/-- MD5 padding: `0x80`, zeros to 56 mod 64, then the 64-bit
little-endian bit length. -/
def md5Pad (msg : List Nat) : List Nat :=
  let len := msg.length
  let bitLen := 8 * len
  let z := (119 - len % 64) % 64
  msg ++ 0x80 :: List.replicate z 0 ++
    [bitLen % 256, bitLen / 256 % 256, bitLen / 65536 % 256,
     bitLen / 16777216 % 256, bitLen / 4294967296 % 256,
     bitLen / 1099511627776 % 256, bitLen / 281474976710656 % 256,
     bitLen / 72057594037927936 % 256]

/-- Split a byte list into 64-byte chunks. -/
def chunks64 : List Nat → List (List Nat)
  | [] => []
  | c :: rest => ((c :: rest).take 64) :: chunks64 ((c :: rest).drop 64)
termination_by l => l.length
decreasing_by
  simp only [List.length_cons, List.length_drop]
  omega

/-- Little-endian byte serialization of one 32-bit word. -/
def leBytes (w : Nat) : List Nat :=
  [w % 256, w / 256 % 256, w / 65536 % 256, w / 16777216 % 256]

/-- Lowercase hexadecimal digit. -/
def hexDigit (n : Nat) : Char :=
  if n < 10 then Char.ofNat (48 + n) else Char.ofNat (87 + n)

/-- Lowercase hex rendering of a byte list. -/
def hexOfBytes : List Nat → List Char
  | [] => []
  | b :: rest => hexDigit (b / 16 % 16) :: hexDigit (b % 16) :: hexOfBytes rest

/-- The 16 digest bytes of MD5 applied to a byte message. -/
def md5Digest (msg : List Nat) : List Nat :=
  let st := chunks64 (md5Pad msg) |>.foldl md5Chunk
    (0x67452301, 0xefcdab89, 0x98badcfe, 0x10325476)
  leBytes st.1 ++ leBytes st.2.1 ++ leBytes st.2.2.1 ++ leBytes st.2.2.2

/-- `hashlib.md5(msg).hexdigest()` as a character list. -/
def md5hex (msg : List Nat) : List Char := hexOfBytes (md5Digest msg)

/-! ### Content fingerprint (`get_content_hash`) -/

/-- The fixed stopword list of `get_content_hash`, in source order. -/
def stopWords : List String :=
  ["ton", "news", "price", "blockchain", "crypto", "token", "musk",
   "elon", "twitter", "spacex"]

/-- `f"{title}_{content}".lower()`. -/
def combinedLower (title content : String) : List Char :=
  pyLower (title.data ++ '_' :: content.data)

/-- Sequential removal of every stopword occurrence. -/
def removeStops (l : List Char) : List Char :=
  stopWords.foldl (fun acc w => pyReplace acc w "") l

/-- `combined.split()[:15]`. -/
def contentWords (title content : String) : List (List Char) :=
  (splitWs (removeStops (combinedLower title content))).take 15

/-- `"_".join(words)`. -/
def textKey (title content : String) : List Char :=
  joinSep '_' (contentWords title content)

/-- `get_content_hash`: first 12 hex characters of the MD5 digest of the
normalized key. -/
def get_content_hash (title content : String) : String :=
  ⟨(md5hex (utf8Encode (textKey title content))).take 12⟩

/-! ### News state (`NewsManager`) with persisted mirrors

File writes are modelled by carrying the written collection in the
state (`sent_file`, `hashes_file`, `last_file`); a field equals what
`json.dump` would serialize at that point. -/

/-- A news item produced by the feed poller. -/
structure NewsItem where
  title : String
  link : String
  content : String
deriving DecidableEq, Repr

/-- The mutable state of `NewsManager`, with the file mirrors. -/
structure BotState where
  sent_news : List String
  content_hashes : List String
  last_news : Option (NewsItem × Nat)
  sent_file : List String
  hashes_file : List String
  last_file : Option (NewsItem × Nat)
deriving DecidableEq, Repr

/-- Fresh-start state: no files on disk, empty sets. -/
def initState : BotState := ⟨[], [], none, [], [], none⟩

/-- `is_sent`: pure membership lookup in the sent set. -/
def is_sent (st : BotState) (link : String) : Bool :=
  decide (link ∈ st.sent_news)

/-- `is_duplicate_content`: membership test on the fingerprint; on first
sight the fingerprint is added to the set and the set is saved to file
before returning `false`.  Set insertion is modelled as cons (the set is
only ever observed through membership). -/
def is_duplicate_content (st : BotState) (title content : String) :
    Bool × BotState :=
  let h := get_content_hash title content
  if h ∈ st.content_hashes then (true, st)
  else
    let hs := h :: st.content_hashes
    (false, { st with content_hashes := hs, hashes_file := hs })

/-- `mark_sent`: add the link to the sent set (Python `set.add` is a
no-op on a present element) and save the set to file. -/
def mark_sent (st : BotState) (link : String) : BotState :=
  let s := if link ∈ st.sent_news then st.sent_news else link :: st.sent_news
  { st with sent_news := s, sent_file := s }

/-- State-mutating operations of `NewsManager` during a process run. -/
inductive BotOp where
  | mark (link : String)
  | dupCheck (title content : String)
deriving DecidableEq, Repr

/-- Apply one operation to the state. -/
def applyOp (st : BotState) : BotOp → BotState
  | .mark l => mark_sent st l
  | .dupCheck t c => (is_duplicate_content st t c).2

/-- Run a sequence of operations. -/
def runOps (st : BotState) (ops : List BotOp) : BotState :=
  ops.foldl applyOp st

/-! ### Topic filter and feed poller -/

/-- The fixed keyword list `TON_KEYWORDS`. -/
def TON_KEYWORDS : List String :=
  ["TON", "TONCOIN", "Ton blockchain", "Telegram TON", "TON coin",
   "ton network", "ton token", "ton ecosystem", "crypto ton", "ton price",
   "ton trading", "ton news"]

/-- `is_ton_related`: case-insensitive substring match of any keyword. -/
def is_ton_related (text : String) : Bool :=
  TON_KEYWORDS.any fun kw => hasSubstr (pyLower kw.data) (pyLower text.data)

/-- One raw feed entry (`entry.get` defaults a missing field to `""`). -/
structure FeedEntry where
  title : String
  link : String
  summary : String
deriving DecidableEq, Repr

/-- The per-entry body of `fetch_rss_news`: topic filter, then the
short-circuit `not is_sent(link) and not is_duplicate_content(...)`
(the duplicate check, with its side effect, runs only when the link is
unseen), then item construction with cleaned title and truncated
content. -/
def process_entry (st : BotState) (e : FeedEntry) :
    Option NewsItem × BotState :=
  if is_ton_related e.title || is_ton_related e.summary then
    if is_sent st e.link then (none, st)
    else
      let r := is_duplicate_content st e.title e.summary
      if r.1 then (none, r.2)
      else
        let clean_content := clean_html e.summary
        (some
          { title := clean_html e.title
            link := e.link
            content :=
              if clean_content.isEmpty then "No description"
              else clean_content.take 200 },
          r.2)
  else (none, st)

/-- Process the first five entries of one feed, appending accepted
items. -/
def process_feed (acc : List NewsItem × BotState) (entries : List FeedEntry) :
    List NewsItem × BotState :=
  (entries.take 5).foldl
    (fun acc e =>
      match process_entry acc.2 e with
      | (some it, st2) => (acc.1 ++ [it], st2)
      | (none, st2) => (acc.1, st2))
    acc

/-- One feed of the `fetch_rss_news` loop: `none` models a feed whose
fetch/parse raised (the exception is caught and the loop moves on). -/
def fetchStep (acc : List NewsItem × BotState)
    (feed : Option (List FeedEntry)) : List NewsItem × BotState :=
  match feed with
  | none => acc
  | some entries => process_feed acc entries

/-- `fetch_rss_news` over a list of feed outcomes. -/
def fetch_rss_news (st : BotState) (feeds : List (Option (List FeedEntry))) :
    List NewsItem × BotState :=
  feeds.foldl fetchStep ([], st)

/-! ### AI analysis (`analyze_news_with_ai`) -/

/-- Python falsiness of `OPENAI_API_KEY` (`not key`): unset or empty. -/
def pyFalsyKey : Option String → Bool
  | none => true
  | some s => s.isEmpty

/-- The rule-based keyword classifier of the no-key branch. -/
def rule_based_analysis (news_title lang : String) : String :=
  let t := pyLower news_title.data
  if hasSubstr "down".data t || hasSubstr "fall".data t then
    if lang = "en" then "📉 Trend: Negative" else "📉 Тренд: Отрицательный"
  else if hasSubstr "up".data t || hasSubstr "rise".data t then
    if lang = "en" then "📈 Trend: Positive" else "📈 Тренд: Положительный"
  else
    if lang = "en" then "📊 Trend: Neutral" else "📊 Тренд: Нейтральный"

/-- `analyze_news_with_ai`: without a key, the rule-based classifier;
with a key, the completion text, or — when the completion call raises
(`completion = none`) — a fixed "Analysis unavailable" message. -/
def analyze_news_with_ai (apiKey : Option String) (completion : Option String)
    (news_title news_content lang : String) : String :=
  if pyFalsyKey apiKey then rule_based_analysis news_title lang
  else
    match completion with
    | some text => text
    | none => if lang = "en" then "Analysis unavailable" else "📊 Анализ недоступен"

/-! ### Notification dispatch (`send_news_alert`)

Message formatting and translation affect only the outgoing text, not
the state; `sendResult` is the delivery outcome: `none` models
`send_message` raising (caught, `False` returned, state untouched),
`some id` the returned message identifier. -/

/-- `send_news_alert` state effect and return value. -/
def send_news_alert (st : BotState) (news : NewsItem)
    (sendResult : Option Nat) : Bool × BotState :=
  match sendResult with
  | none => (false, st)
  | some msgId =>
    let st1 := mark_sent st news.link
    let last := some (news, msgId)
    (true, { st1 with last_news := last, last_file := last })

/-! ### Price cache (`get_ton_price`)

Prices are modelled over `ℚ`; timestamps in seconds.  The collaborator
environment: `spot = none` means the spot request raised, `some none` a
response without a `"price"` field; `day` likewise for the 24h request,
with an optional `priceChangePercent` field; `rub` carries the
conversion response (`status == 200`, optional `rates["RUB"]`). -/

/-- A successful price result dict. -/
structure PriceInfo where
  price_usd : ℚ
  price_rub : ℚ
  change_24h : ℚ
  emoji : String
deriving DecidableEq, Repr

/-- Collaborator responses for one fetch attempt. -/
structure PriceEnv where
  spot : Option (Option ℚ)
  day : Option (Option ℚ)
  rub : Option (Bool × Option ℚ)
deriving DecidableEq, Repr

/-- The `try` body of `get_ton_price` past the cache check. -/
def price_fetch (env : PriceEnv) : Option PriceInfo :=
  match env.spot with
  | none => none
  | some none => none
  | some (some price_usd) =>
    match env.day with
    | none => none
    | some chField =>
      let change_24h : ℚ := chField.getD 0
      let usd_rub_rate : ℚ :=
        match env.rub with
        | some (true, some r) => r
        | _ => 80
      let price_rub := price_usd * usd_rub_rate
      let change_emoji := if change_24h > 0 then "📈" else "📉"
      some ⟨price_usd, price_rub, change_24h, change_emoji⟩

/-- `get_ton_price`: serve the cached value when it is younger than five
minutes, otherwise fetch.  Returns the result, the new cache, and
whether the price service was contacted. -/
def get_ton_price (cache : Option (PriceInfo × ℕ)) (now : ℕ)
    (env : PriceEnv) : Option PriceInfo × Option (PriceInfo × ℕ) × Bool :=
  let fetched : Option PriceInfo × Option (PriceInfo × ℕ) × Bool :=
    match price_fetch env with
    | some r => (some r, some (r, now), true)
    | none => (none, cache, true)
  match cache with
  | some (p, ts) => if now - ts < 300 then (some p, cache, false) else fetched
  | none => fetched

/-! ### JSON persistence (`json.dump` / `json.load`)

`json.dump` of a list of strings (or a string-to-string dict) with the
default separators, restricted to printable-ASCII payloads (`0x20 ≤ c <
0x7F`): `"` and `\` are escaped, everything else passes through.  The
parser accepts exactly this fragment; `json.load` of a dumped value is
modelled by it. -/

/-- Left brace / right brace characters. -/
def lbrace : Char := Char.ofNat 123

def rbrace : Char := Char.ofNat 125

/-- Characters `json.dump` writes verbatim inside a string. -/
def jsonPlainChar (c : Char) : Bool :=
  32 ≤ c.toNat && c.toNat < 127

/-- A string all of whose characters are written verbatim. -/
def jsonPlainStr (s : String) : Bool := s.data.all jsonPlainChar

/-- Escape `"` and `\` (the only escapes needed on the plain fragment). -/
def jsonEscape : List Char → List Char
  | [] => []
  | c :: rest =>
    (if c = '"' || c = '\\' then ['\\', c] else [c]) ++ jsonEscape rest

/-- Render one JSON string literal. -/
def renderJString (s : List Char) : List Char :=
  '"' :: jsonEscape s ++ ['"']

/-- `json.dump(list_of_strings)` with the default `", "` separator. -/
def renderStrList (l : List String) : List Char :=
  '[' :: joinL ", ".data (l.map fun s => renderJString s.data) ++ [']']

/-- `json.dump(dict_of_strings)` with default `", "` / `": "`. -/
def renderStrMap (m : List (String × String)) : List Char :=
  lbrace :: joinL ", ".data
    (m.map fun kv => renderJString kv.1.data ++ ": ".data ++ renderJString kv.2.data)
    ++ [rbrace]

/-- Parse a JSON string body after the opening quote: returns the
decoded characters and the remainder after the closing quote. -/
def parseJStrBody : List Char → Option (List Char × List Char)
  | [] => none
  | c :: rest =>
    if c = '"' then some ([], rest)
    else if c = '\\' then
      match rest with
      | [] => none
      | e :: rest2 =>
        if e = '"' || e = '\\' then
          match parseJStrBody rest2 with
          | some (s, r) => some (e :: s, r)
          | none => none
        else none
    else
      match parseJStrBody rest with
      | some (s, r) => some (c :: s, r)
      | none => none

/-- Parse one JSON string literal. -/
def parseJString : List Char → Option (List Char × List Char)
  | '"' :: rest => parseJStrBody rest
  | _ => none

/-- Parse the comma-separated items of a nonempty array, consuming the
closing bracket.  `fuel` bounds the recursion by the item count. -/
def parseItems : Nat → List Char → Option (List String × List Char)
  | 0, _ => none
  | fuel + 1, l =>
    match parseJString l with
    | none => none
    | some (s, r) =>
      if r.take 1 = [']'] then some ([⟨s⟩], r.drop 1)
      else if r.take 2 = [',', ' '] then
        match parseItems fuel (r.drop 2) with
        | some (ss, r3) => some (⟨s⟩ :: ss, r3)
        | none => none
      else none

/-- Parse a whole dumped string list. -/
def parseStrList (l : List Char) : Option (List String) :=
  if l.take 1 = ['['] then
    if l.drop 1 = [']'] then some []
    else
      match parseItems (l.drop 1).length (l.drop 1) with
      | some (ss, r) => if r = [] then some ss else none
      | none => none
  else none

/-- Parse the `"key": "value"` pairs of a nonempty object, consuming the
closing brace. -/
def parsePairs : Nat → List Char → Option (List (String × String) × List Char)
  | 0, _ => none
  | fuel + 1, l =>
    match parseJString l with
    | none => none
    | some (kk, r) =>
      if r.take 2 = [':', ' '] then
        match parseJString (r.drop 2) with
        | none => none
        | some (v, r3) =>
          if r3.take 1 = [rbrace] then some ([(⟨kk⟩, ⟨v⟩)], r3.drop 1)
          else if r3.take 2 = [',', ' '] then
            match parsePairs fuel (r3.drop 2) with
            | some (ps, r4) => some ((⟨kk⟩, ⟨v⟩) :: ps, r4)
            | none => none
          else none
      else none

/-- Parse a whole dumped string map. -/
def parseStrMap (l : List Char) : Option (List (String × String)) :=
  if l.take 1 = [lbrace] then
    if l.drop 1 = [rbrace] then some []
    else
      match parsePairs (l.drop 1).length (l.drop 1) with
      | some (ps, r) => if r = [] then some ps else none
      | none => none
  else none

/-! ### Persistence functions

A file is `Option (List Char)`: `none` when the file does not exist,
`some text` its contents. -/

/-- `save_content_hashes`: `json.dump(list(hashes), f)`. -/
def save_content_hashes (hashes : List String) : List Char :=
  renderStrList hashes

/-- `load_content_hashes`: `set(json.load(f))`, empty on a missing file
or a parse error. -/
def load_content_hashes (file : Option (List Char)) : List String :=
  match file with
  | none => []
  | some txt =>
    match parseStrList txt with
    | some l => l
    | none => []

/-- `NewsManager.save_sent_news`: `json.dump(list(sent_news), f)`. -/
def save_sent_news (sent : List String) : List Char :=
  renderStrList sent

/-- `NewsManager.load_sent_news`. -/
def load_sent_news (file : Option (List Char)) : List String :=
  match file with
  | none => []
  | some txt =>
    match parseStrList txt with
    | some l => l
    | none => []

/-- Python dict assignment `m[k] = v`: update in place, else append
(insertion order, as `json.dump` iterates it). -/
def setKey : List (String × String) → String → String → List (String × String)
  | [], k, v => [(k, v)]
  | (k1, v1) :: rest, k, v =>
    if k1 = k then (k, v) :: rest else (k1, v1) :: setKey rest k v

/-- `save_user_language`: set `str(user_id)` to `lang` and dump the map.
Returns the new in-memory map and the file text. -/
def save_user_language (m : List (String × String)) (user_id : Nat)
    (lang : String) : List (String × String) × List Char :=
  let m2 := setKey m (toString user_id) lang
  (m2, renderStrMap m2)

/-- `load_user_languages`: parse the file, empty on absence or error. -/
def load_user_languages (file : Option (List Char)) : List (String × String) :=
  match file with
  | none => []
  | some txt =>
    match parseStrMap txt with
    | some m => m
    | none => []

/-- `get_user_language`: lookup with default `"ru"`. -/
def get_user_language (m : List (String × String)) (user_id : Nat) : String :=
  match m.lookup (toString user_id) with
  | some l => l
  | none => "ru"

/-! ## Lemmas -/

/-- Strings with equal character data are equal. -/
theorem string_data_ext (a b : String) (h : a.data = b.data) : a = b := by
  cases a; cases b; exact congrArg String.mk h

/-- Every word produced by the split worker is nonempty and free of
whitespace, provided the accumulated word is. -/
theorem splitWsAux_wf :
    ∀ (l cur : List Char), cur.all (fun c => !pyIsSpace c) = true →
      ∀ t ∈ splitWsAux l cur, t ≠ [] ∧ t.all (fun c => !pyIsSpace c) = true := by
  intro l
  induction l with
  | nil =>
    intro cur hcur t ht
    simp only [splitWsAux] at ht
    by_cases hc : cur = []
    · simp [hc] at ht
    · simp [hc] at ht
      subst ht
      refine ⟨by simpa using hc, by simpa using hcur⟩
  | cons c rest ih =>
    intro cur hcur t ht
    simp only [splitWsAux] at ht
    by_cases hsp : pyIsSpace c
    · simp only [hsp, if_true] at ht
      by_cases hc : cur = []
      · simp only [hc, if_true] at ht
        exact ih [] (by simp) t ht
      · simp only [hc, if_false] at ht
        rcases List.mem_cons.mp ht with h1 | h2
        · subst h1
          exact ⟨by simpa using hc, by simpa using hcur⟩
        · exact ih [] (by simp) t h2
    · simp only [hsp, if_false] at ht
      refine ih (c :: cur) ?_ t ht
      simp [hcur, hsp]

/-- The split worker passes over a whole whitespace-free word,
accumulating it. -/
theorem splitWsAux_word :
    ∀ (cs k cur : List Char), cs.all (fun c => !pyIsSpace c) = true →
      splitWsAux (cs ++ k) cur = splitWsAux k (cs.reverse ++ cur) := by
  intro cs
  induction cs with
  | nil => intro k cur _; simp
  | cons c cs' ih =>
    intro k cur hall
    simp only [List.all_cons, Bool.and_eq_true] at hall
    have hc : pyIsSpace c = false := by
      cases h : pyIsSpace c
      · rfl
      · rw [h] at hall; simp at hall
    simp only [List.cons_append, splitWsAux, hc, Bool.false_eq_true, if_false]
    show splitWsAux (cs' ++ k) (c :: cur) = splitWsAux k ((c :: cs').reverse ++ cur)
    rw [ih k (c :: cur) hall.2]
    simp [List.reverse_cons, List.append_assoc]

/-- Splitting the space-joined rendering of nonempty, whitespace-free
words recovers exactly those words. -/
theorem splitWs_joinSep :
    ∀ ts : List (List Char),
      (∀ t ∈ ts, t ≠ [] ∧ t.all (fun c => !pyIsSpace c) = true) →
      splitWs (joinSep ' ' ts) = ts := by
  intro ts
  induction ts with
  | nil => intro _; simp [joinSep, splitWs, splitWsAux]
  | cons t ts' ih =>
    intro hwf
    have ht := hwf t (by simp)
    cases ts' with
    | nil =>
      show splitWs (joinSep ' ' [t]) = [t]
      simp only [joinSep, splitWs]
      have h1 : splitWsAux (t ++ []) [] = splitWsAux [] (t.reverse ++ []) :=
        splitWsAux_word t [] [] ht.2
      simp only [List.append_nil] at h1
      rw [h1]
      simp [splitWsAux, ht.1]
    | cons t2 ts'' =>
      show splitWs (t ++ ' ' :: joinSep ' ' (t2 :: ts'')) = t :: t2 :: ts''
      simp only [splitWs]
      rw [splitWsAux_word t (' ' :: joinSep ' ' (t2 :: ts'')) [] ht.2]
      have hsp : pyIsSpace ' ' = true := by decide
      have hrev : t.reverse ++ [] ≠ [] := by simp [ht.1]
      simp only [splitWsAux, hsp, if_true, List.append_nil, hrev, if_false,
        List.reverse_reverse]
      have := ih (fun u hu => hwf u (by simp [hu]))
      simp only [splitWs] at this
      rw [this]
      simp [List.reverse_eq_nil_iff, ht.1]

/-- Whitespace normalization is idempotent. -/
theorem normalizeWs_idem (l : List Char) :
    normalizeWs (normalizeWs l) = normalizeWs l := by
  unfold normalizeWs
  rw [splitWs_joinSep (splitWs l) (splitWsAux_wf l [] (by simp))]

/-- Tag stripping leaves a `<`-free string unchanged. -/
theorem stripTagsF_id :
    ∀ (fuel : Nat) (l : List Char), (∀ c ∈ l, c ≠ '<') →
      stripTagsF fuel l = l := by
  intro fuel
  induction fuel with
  | zero => intro l _; simp [stripTagsF]
  | succ n ih =>
    intro l hl
    cases l with
    | nil => simp [stripTagsF]
    | cons c rest =>
      have hc : ¬(c = '<') := hl c (by simp)
      simp only [stripTagsF]
      rw [if_neg hc, ih rest (fun x hx => hl x (by simp [hx]))]

theorem stripTags_id (l : List Char) (h : ∀ c ∈ l, c ≠ '<') :
    stripTags l = l :=
  stripTagsF_id l.length l h

/-- Replacement of a pattern whose head character does not occur leaves
the string unchanged. -/
theorem replAux_id (p : Char) (ps rep : List Char) :
    ∀ l : List Char, p ∉ l → replAux p ps rep l 0 = l := by
  intro l
  induction l with
  | nil => intro _; rfl
  | cons c rest ih =>
    intro hp
    have hc : (c = p) = False := by
      simp only [eq_iff_iff, iff_false]
      intro h; exact hp (h ▸ List.mem_cons_self c rest)
    simp only [replAux, beginsWith, hc, decide_False, Bool.false_and,
      Bool.false_eq_true, if_false]
    rw [ih (fun h => hp (List.mem_cons_of_mem c h))]

theorem pyReplace_id (l : List Char) (pat rep : String) (q0 : Char)
    (hh : pat.data.head? = some q0) (hl : q0 ∉ l) :
    pyReplace l pat rep = l := by
  unfold pyReplace
  cases hp : pat.data with
  | nil => rfl
  | cons q qs =>
    rw [hp] at hh
    simp only [List.head?] at hh
    injection hh with hq
    exact replAux_id q qs rep.data l (by rw [hq]; exact hl)

/-- Entity decoding leaves an `&`-free string unchanged. -/
theorem decodeEntities_id (l : List Char) (h : '&' ∉ l) :
    decodeEntities l = l := by
  show pyReplace (pyReplace (pyReplace (pyReplace (pyReplace
    (pyReplace l "&quot;" "\"") "&amp;" "&") "&lt;" "<") "&gt;" ">")
    "&#39;" "'") "&nbsp;" " " = l
  rw [pyReplace_id l "&quot;" "\"" '&' (by decide) h,
    pyReplace_id l "&amp;" "&" '&' (by decide) h,
    pyReplace_id l "&lt;" "<" '&' (by decide) h,
    pyReplace_id l "&gt;" ">" '&' (by decide) h,
    pyReplace_id l "&#39;" "'" '&' (by decide) h,
    pyReplace_id l "&nbsp;" " " '&' (by decide) h]

/-- The data of `clean_html` output, uniformly over both branches. -/
theorem clean_html_data (s : String) :
    (clean_html s).data = normalizeWs (decodeEntities (stripTags s.data)) := by
  unfold clean_html
  by_cases h : s.isEmpty
  · have hs : s = "" := (String.isEmpty_iff s).mp h
    have hd : s.data = [] := by rw [hs]
    simp [h, hd, stripTags, stripTagsF, decodeEntities, pyReplace, replAux,
      normalizeWs, splitWs, splitWsAux, joinSep]
  · simp [h]

theorem hexOfBytes_length : ∀ l : List Nat, (hexOfBytes l).length = 2 * l.length := by
  intro l
  induction l with
  | nil => rfl
  | cons b rest ih => simp [hexOfBytes, ih]; omega

theorem md5Digest_length (msg : List Nat) : (md5Digest msg).length = 16 := by
  simp [md5Digest, leBytes]

theorem get_content_hash_length (t c : String) :
    (get_content_hash t c).length = 12 := by
  show (String.mk ((md5hex (utf8Encode (textKey t c))).take 12)).length = 12
  simp [String.length, md5hex, List.length_take, hexOfBytes_length, md5Digest_length]

/-- Membership in the sent set after one operation. -/
theorem applyOp_sent (st : BotState) (op : BotOp) (L : String) :
    L ∈ (applyOp st op).sent_news ↔ L ∈ st.sent_news ∨ op = BotOp.mark L := by
  cases op with
  | mark l =>
    simp only [applyOp, mark_sent]
    by_cases hmem : l ∈ st.sent_news
    · simp only [if_pos hmem]
      constructor
      · intro h; exact Or.inl h
      · rintro (h | h)
        · exact h
        · injection h with h2; rw [← h2]; exact hmem
    · simp only [if_neg hmem, List.mem_cons]
      constructor
      · rintro (h | h)
        · exact Or.inr (by rw [h])
        · exact Or.inl h
      · rintro (h | h)
        · exact Or.inr h
        · injection h with h2; exact Or.inl h2.symm
  | dupCheck t c =>
    have hs : (is_duplicate_content st t c).2.sent_news = st.sent_news := by
      simp only [is_duplicate_content]
      by_cases hm : get_content_hash t c ∈ st.content_hashes
      · rw [if_pos hm]
      · rw [if_neg hm]
    simp [applyOp, hs]

/-- Membership in the sent set after a run of operations. -/
theorem runOps_sent :
    ∀ (ops : List BotOp) (st : BotState) (L : String),
      L ∈ (runOps st ops).sent_news ↔
        L ∈ st.sent_news ∨ BotOp.mark L ∈ ops := by
  intro ops
  induction ops with
  | nil => intro st L; simp [runOps]
  | cons op rest ih =>
    intro st L
    show L ∈ (runOps (applyOp st op) rest).sent_news ↔ _
    rw [ih (applyOp st op) L]
    rw [applyOp_sent st op L]
    simp only [List.mem_cons]
    constructor
    · rintro ((h | h) | h)
      · exact Or.inl h
      · exact Or.inr (Or.inl h.symm)
      · exact Or.inr (Or.inr h)
    · rintro (h | (h | h))
      · exact Or.inl (Or.inl h)
      · exact Or.inl (Or.inr h.symm)
      · exact Or.inr h

/-! ## Claims -/

/-- Claim C1: from a state that has not yet seen the fingerprint of
`(title, content)`, the first `is_duplicate_content` call returns
`false` and — before returning — records the fingerprint in the set and
in the persisted file; a second call with the same input then returns
`true`. -/
theorem claim1_thm (st : BotState) (title content : String)
    (h : get_content_hash title content ∉ st.content_hashes) :
    (is_duplicate_content st title content).1 = false ∧
    get_content_hash title content ∈
      (is_duplicate_content st title content).2.content_hashes ∧
    get_content_hash title content ∈
      (is_duplicate_content st title content).2.hashes_file ∧
    (is_duplicate_content (is_duplicate_content st title content).2
      title content).1 = true := by
  simp only [is_duplicate_content]
  rw [if_neg h]
  simp only []
  rw [if_pos (List.mem_cons_self _ _)]
  exact ⟨trivial, List.mem_cons_self _ _, List.mem_cons_self _ _, rfl⟩

theorem claim1_witness :
    (is_duplicate_content initState "TON up" "body").1 = false ∧
    (is_duplicate_content (is_duplicate_content initState "TON up" "body").2
      "TON up" "body").1 = true := by
  have h := claim1_thm initState "TON up" "body" (by simp [initState])
  exact ⟨h.1, h.2.2.2⟩

/-- Claim C2: the fingerprint is the first 12 hex characters of the MD5
digest of the normalized key (lowercased `title_content`, stopwords
removed, first 15 whitespace tokens joined by `_`); it depends only on
that key, so items with equal normalized text get equal fingerprints
regardless of their links (links are not an input at all). -/
theorem claim2_thm (t1 c1 t2 c2 : String)
    (h : textKey t1 c1 = textKey t2 c2) :
    get_content_hash t1 c1 = get_content_hash t2 c2 ∧
    (get_content_hash t1 c1).length = 12 := by
  constructor
  · unfold get_content_hash
    rw [h]
  · exact get_content_hash_length t1 c1

theorem claim2_witness :
    textKey "Hello World" "" = textKey "hello  world" "" ∧
    get_content_hash "Hello World" "" = get_content_hash "hello  world" "" := by
  refine ⟨by decide, ?_⟩
  exact (claim2_thm "Hello World" "" "hello  world" "" (by decide)).1

/-- Claim C3: starting from a fresh state, `is_sent L` is `true` after a
run of operations exactly when some `mark_sent L` occurred in it (so it
is `false` until then and stays `true` afterwards, whatever else runs);
and in the dispatch path, a failing send returns `false` leaving the
state untouched, while a successful send returns `true` and records the
link in the sent set and its persisted file. -/
theorem claim3_thm (L : String) (ops : List BotOp) (st : BotState)
    (news : NewsItem) (mid : Nat) :
    (is_sent (runOps initState ops) L = true ↔ BotOp.mark L ∈ ops) ∧
    send_news_alert st news none = (false, st) ∧
    (send_news_alert st news (some mid)).1 = true ∧
    news.link ∈ (send_news_alert st news (some mid)).2.sent_news ∧
    news.link ∈ (send_news_alert st news (some mid)).2.sent_file := by
  refine ⟨?_, rfl, rfl, ?_, ?_⟩
  · rw [is_sent, decide_eq_true_eq, runOps_sent ops initState L]
    simp [initState]
  · simp only [send_news_alert, mark_sent]
    by_cases hmem : news.link ∈ st.sent_news
    · simp [if_pos hmem, hmem]
    · simp [if_neg hmem]
  · simp only [send_news_alert, mark_sent]
    by_cases hmem : news.link ∈ st.sent_news
    · simp [if_pos hmem, hmem]
    · simp [if_neg hmem]

theorem claim3_witness :
    is_sent (runOps initState [BotOp.dupCheck "t" "c",
      BotOp.mark "https://a.example/1"]) "https://a.example/1" = true ∧
    is_sent (runOps initState [BotOp.dupCheck "t" "c"]) "https://a.example/1" = false ∧
    (send_news_alert initState ⟨"T", "https://a.example/1", "c"⟩ none).1 = false := by
  refine ⟨?_, ?_, ?_⟩
  · exact (claim3_thm "https://a.example/1" [BotOp.dupCheck "t" "c",
      BotOp.mark "https://a.example/1"] initState ⟨"T", "L", "c"⟩ 0).1.mpr
      (by simp)
  · have h := (claim3_thm "https://a.example/1" [BotOp.dupCheck "t" "c"]
      initState ⟨"T", "L", "c"⟩ 0).1
    cases hb : is_sent (runOps initState [BotOp.dupCheck "t" "c"]) "https://a.example/1"
    · rfl
    · exact absurd (h.mp hb) (by simp)
  · exact congrArg Prod.fst
      ((claim3_thm "x" [] initState ⟨"T", "https://a.example/1", "c"⟩ 0).2.1)

/-- Claim C7 counterexample: `clean_html` is not idempotent — decoding
`&lt;b&gt;` yields `<b>`, which a second pass strips away. -/
theorem claim7_counterexample :
    clean_html (clean_html "&lt;b&gt;") ≠ clean_html "&lt;b&gt;" := by decide

/-- Claim C7 (amended): `clean_html` is idempotent on every input whose
cleaned output contains neither `<` nor `&`; in general entity decoding
can manufacture text that another pass would remove or decode again. -/
theorem claim7_thm (s : String)
    (h : (clean_html s).data.all (fun c => !(c = '<' || c = '&')) = true) :
    clean_html (clean_html s) = clean_html s := by
  have hchars : ∀ c ∈ (clean_html s).data, ¬(c = '<') ∧ ¬(c = '&') := by
    intro c hc
    have h2 := List.all_eq_true.mp h c hc
    simpa using h2
  apply string_data_ext
  rw [clean_html_data (clean_html s),
    stripTags_id _ (fun c hc => (hchars c hc).1),
    decodeEntities_id _ (fun hmem => (hchars '&' hmem).2 rfl),
    clean_html_data s]
  exact normalizeWs_idem _

theorem claim7_witness :
    ("a  b <i>x&amp;y</i>".data.all (fun c => !(c = '<' || c = '&')) = true →
      False) ∧
    (clean_html "a  b x y").data.all (fun c => !(c = '<' || c = '&')) = true ∧
    clean_html (clean_html "a  b x y") = clean_html "a  b x y" :=
  ⟨by decide, by decide, claim7_thm "a  b x y" (by decide)⟩

/-- Claim C6 counterexample: with an API key set and the completion
call raising, the produced text is the static unavailable message, not
the rule-based classifier output for the "down" title. -/
theorem claim6_counterexample :
    analyze_news_with_ai (some "sk-key") none "TON price down" "" "ru" ≠
      rule_based_analysis "TON price down" "ru" := by decide

/-- Claim C6 (amended): the rule-based classifier output (negative for
down/fall, positive for up/rise, else neutral) is used exactly when the
completion collaborator is unavailable (key unset or empty); when a key
is present and the call raises, a fixed "Analysis unavailable" message
is returned instead of the classifier output. -/
theorem claim6_thm (key completion : Option String) (t c lang : String) :
    (pyFalsyKey key = true →
      analyze_news_with_ai key completion t c lang = rule_based_analysis t lang) ∧
    (pyFalsyKey key = false → completion = none →
      analyze_news_with_ai key completion t c lang =
        (if lang = "en" then "Analysis unavailable" else "📊 Анализ недоступен")) ∧
    ((hasSubstr "down".data (pyLower t.data) ||
        hasSubstr "fall".data (pyLower t.data)) = true →
      rule_based_analysis t lang =
        (if lang = "en" then "📉 Trend: Negative" else "📉 Тренд: Отрицательный")) ∧
    ((hasSubstr "down".data (pyLower t.data) ||
        hasSubstr "fall".data (pyLower t.data)) = false →
      (hasSubstr "up".data (pyLower t.data) ||
        hasSubstr "rise".data (pyLower t.data)) = true →
      rule_based_analysis t lang =
        (if lang = "en" then "📈 Trend: Positive" else "📈 Тренд: Положительный")) ∧
    ((hasSubstr "down".data (pyLower t.data) ||
        hasSubstr "fall".data (pyLower t.data)) = false →
      (hasSubstr "up".data (pyLower t.data) ||
        hasSubstr "rise".data (pyLower t.data)) = false →
      rule_based_analysis t lang =
        (if lang = "en" then "📊 Trend: Neutral" else "📊 Тренд: Нейтральный")) := by
  refine ⟨?_, ?_, ?_, ?_, ?_⟩
  · intro hk
    simp [analyze_news_with_ai, hk]
  · intro hk hc
    simp [analyze_news_with_ai, hk, hc]
  · intro hdf
    simp [rule_based_analysis, hdf]
  · intro hdf hur
    simp [rule_based_analysis, hdf, hur]
  · intro hdf hur
    simp [rule_based_analysis, hdf, hur]

theorem claim6_witness :
    analyze_news_with_ai none none "TON price down" "" "ru" =
      rule_based_analysis "TON price down" "ru" ∧
    rule_based_analysis "TON price down" "ru" = "📉 Тренд: Отрицательный" ∧
    analyze_news_with_ai (some "sk-key") none "TON price down" "" "ru" =
      "📊 Анализ недоступен" := by
  refine ⟨?_, ?_, ?_⟩
  · exact (claim6_thm none none "TON price down" "" "ru").1 (by decide)
  · have h := (claim6_thm none none "TON price down" "" "ru").2.2.1 (by decide)
    simpa using h
  · have h := (claim6_thm (some "sk-key") none "TON price down" "" "ru").2.1
      (by decide) rfl
    simpa using h

/-- Claim C4: a call within the five-minute freshness window returns
the cached value unchanged without contacting the price service; a call
outside the window performs a fetch; and when the primary spot-price
call raises, or its response has no `price` field, the function returns
`none`. -/
theorem claim4_thm (cache : Option (PriceInfo × ℕ)) (p : PriceInfo)
    (ts now : ℕ) (env : PriceEnv) :
    (cache = some (p, ts) → now - ts < 300 →
      get_ton_price cache now env = (some p, cache, false)) ∧
    (cache = some (p, ts) → ¬(now - ts < 300) →
      (get_ton_price cache now env).2.2 = true) ∧
    (env.spot = none → get_ton_price none now env = (none, none, true)) ∧
    (env.spot = some none → get_ton_price none now env = (none, none, true)) ∧
    (cache = some (p, ts) → ¬(now - ts < 300) →
      env.spot = none ∨ env.spot = some none →
      (get_ton_price cache now env).1 = none) := by
  refine ⟨?_, ?_, ?_, ?_, ?_⟩
  · intro hc hfresh
    subst hc
    simp [get_ton_price, hfresh]
  · intro hc hstale
    subst hc
    simp only [get_ton_price, if_neg hstale]
    cases hf : price_fetch env <;> simp [hf]
  · intro hspot
    simp [get_ton_price, price_fetch, hspot]
  · intro hspot
    simp [get_ton_price, price_fetch, hspot]
  · intro hc hstale hspot
    subst hc
    have hf : price_fetch env = none := by
      rcases hspot with h | h <;> simp [price_fetch, h]
    simp [get_ton_price, hstale, hf]

theorem claim4_witness :
    get_ton_price (some (⟨5, 400, 2, "📈"⟩, 100)) 250
        ⟨some (some 6), some (some 1), none⟩ =
      (some ⟨5, 400, 2, "📈"⟩, some (⟨5, 400, 2, "📈"⟩, 100), false) ∧
    (get_ton_price (some (⟨5, 400, 2, "📈"⟩, 100)) 1000
        ⟨some (some 6), some (some 1), none⟩).2.2 = true ∧
    get_ton_price none 0 ⟨none, some (some 1), none⟩ = (none, none, true) ∧
    get_ton_price none 0 ⟨some none, some (some 1), none⟩ = (none, none, true) := by
  refine ⟨?_, ?_, ?_, ?_⟩
  · exact (claim4_thm (some (⟨5, 400, 2, "📈"⟩, 100)) ⟨5, 400, 2, "📈"⟩ 100 250
      ⟨some (some 6), some (some 1), none⟩).1 rfl (by decide)
  · exact (claim4_thm (some (⟨5, 400, 2, "📈"⟩, 100)) ⟨5, 400, 2, "📈"⟩ 100 1000
      ⟨some (some 6), some (some 1), none⟩).2.1 rfl (by decide)
  · exact (claim4_thm none ⟨5, 400, 2, "📈"⟩ 0 0
      ⟨none, some (some 1), none⟩).2.2.1 rfl
  · exact (claim4_thm none ⟨5, 400, 2, "📈"⟩ 0 0
      ⟨some none, some (some 1), none⟩).2.2.2.1 rfl

/-- Claim C10: on a successful fresh fetch the trend emoji is the
up-arrow exactly when the 24-hour change is strictly positive; a zero,
negative or defaulted (missing-field) change yields the down-arrow. -/
theorem claim10_thm (now : ℕ) (env : PriceEnv) (p : ℚ) (chF : Option ℚ)
    (hs : env.spot = some (some p)) (hd : env.day = some chF) :
    ∃ pi : PriceInfo, (get_ton_price none now env).1 = some pi ∧
      pi.change_24h = chF.getD 0 ∧
      (pi.emoji = "📈" ↔ 0 < pi.change_24h) ∧
      (chF = none → pi.emoji = "📉") ∧
      (pi.change_24h ≤ 0 → pi.emoji = "📉") := by
  have hf : price_fetch env =
      some ⟨p, p * (match env.rub with
        | some (true, some r) => r
        | _ => 80), chF.getD 0,
        if chF.getD 0 > 0 then "📈" else "📉"⟩ := by
    simp [price_fetch, hs, hd]
  refine ⟨⟨p, p * (match env.rub with
      | some (true, some r) => r
      | _ => 80), chF.getD 0,
      if chF.getD 0 > 0 then "📈" else "📉"⟩,
    by simp [get_ton_price, hf], rfl, ?_, ?_, ?_⟩
  · by_cases hch : (0 : ℚ) < chF.getD 0
    · simp [hch]
    · simp only [gt_iff_lt, if_neg hch]
      constructor
      · intro h; exact absurd h (by decide)
      · intro h; exact absurd h hch
  · intro hnone
    subst hnone
    simp
  · intro hle
    have : ¬((0 : ℚ) < chF.getD 0) := not_lt.mpr hle
    simp [this]

theorem claim10_witness :
    ∃ pi : PriceInfo,
      (get_ton_price none 0 ⟨some (some 5), some (some 0), none⟩).1 = some pi ∧
      (pi.emoji = "📈" ↔ 0 < pi.change_24h) ∧ pi.emoji = "📉" := by
  obtain ⟨pi, h1, h2, h3, _, h5⟩ :=
    claim10_thm 0 ⟨some (some 5), some (some 0), none⟩ 5 (some 0) rfl rfl
  refine ⟨pi, h1, h3, h5 ?_⟩
  rw [h2]
  simp

/-- The first component of the duplicate check is just membership. -/
theorem is_dup_fst (st : BotState) (t c : String) :
    (is_duplicate_content st t c).1 =
      decide (get_content_hash t c ∈ st.content_hashes) := by
  simp only [is_duplicate_content]
  by_cases hm : get_content_hash t c ∈ st.content_hashes
  · rw [if_pos hm]; simp [hm]
  · rw [if_neg hm]; simp [hm]

/-- Dropping a failed feed from anywhere in the list leaves the folded
result unchanged. -/
theorem foldl_skip_none (fs2 : List (Option (List FeedEntry))) :
    ∀ (fs1 : List (Option (List FeedEntry))) (acc : List NewsItem × BotState),
      List.foldl fetchStep acc (fs1 ++ none :: fs2) =
        List.foldl fetchStep acc (fs1 ++ fs2) := by
  intro fs1
  induction fs1 with
  | nil => intro acc; simp [List.foldl, fetchStep]
  | cons f fs1' ih => intro acc; simp only [List.cons_append, List.foldl]; exact ih _

/-- Claim C5: an entry yields an item exactly when the topic filter
accepts its title or summary, its link is unseen, and its fingerprint is
new; the produced item carries the cleaned title, the entry link, and
the cleaned summary truncated to 200 characters (placeholder when the
cleaned summary is empty); and a raising feed never affects the
processing of the other feeds. -/
theorem claim5_thm (st : BotState) (e : FeedEntry) (it : NewsItem)
    (fs1 fs2 : List (Option (List FeedEntry))) :
    ((process_entry st e).1.isSome = true ↔
      ((is_ton_related e.title || is_ton_related e.summary) = true ∧
        is_sent st e.link = false ∧
        get_content_hash e.title e.summary ∉ st.content_hashes)) ∧
    ((process_entry st e).1 = some it →
      it.title = clean_html e.title ∧ it.link = e.link ∧
      it.content = (if (clean_html e.summary).isEmpty then "No description"
        else (clean_html e.summary).take 200)) ∧
    fetch_rss_news st (fs1 ++ none :: fs2) = fetch_rss_news st (fs1 ++ fs2) := by
  refine ⟨?_, ?_, foldl_skip_none fs2 fs1 ([], st)⟩
  · by_cases hrel : (is_ton_related e.title || is_ton_related e.summary) = true
    · by_cases hsent : is_sent st e.link = true
      · simp [process_entry, hrel, hsent]
      · have hsent2 : is_sent st e.link = false := by
          cases h : is_sent st e.link
          · rfl
          · exact absurd h hsent
        by_cases hm : get_content_hash e.title e.summary ∈ st.content_hashes
        · simp [process_entry, hrel, hsent2, is_dup_fst, hm]
        · simp [process_entry, hrel, hsent2, is_dup_fst, hm]
    · have hrel2 : (is_ton_related e.title || is_ton_related e.summary) = false := by
        cases h : (is_ton_related e.title || is_ton_related e.summary)
        · rfl
        · exact absurd h hrel
      simp [process_entry, hrel2]
  · intro hsome
    by_cases hrel : (is_ton_related e.title || is_ton_related e.summary) = true
    · by_cases hsent : is_sent st e.link = true
      · simp [process_entry, hrel, hsent] at hsome
      · have hsent2 : is_sent st e.link = false := by
          cases h : is_sent st e.link
          · rfl
          · exact absurd h hsent
        by_cases hm : get_content_hash e.title e.summary ∈ st.content_hashes
        · simp [process_entry, hrel, hsent2, is_dup_fst, hm] at hsome
        · simp [process_entry, hrel, hsent2, is_dup_fst, hm] at hsome
          rw [← hsome]
          exact ⟨rfl, rfl, rfl⟩
    · have hrel2 : (is_ton_related e.title || is_ton_related e.summary) = false := by
        cases h : (is_ton_related e.title || is_ton_related e.summary)
        · rfl
        · exact absurd h hrel
      simp [process_entry, hrel2] at hsome

theorem claim5_witness :
    (process_entry initState ⟨"TON price up today", "https://a.example/1",
      "details about toncoin"⟩).1.isSome = true ∧
    (process_entry initState ⟨"sports results", "https://a.example/2",
      "a match report"⟩).1.isSome = false ∧
    fetch_rss_news initState [none] = fetch_rss_news initState [] := by
  refine ⟨?_, ?_, ?_⟩
  · exact (claim5_thm initState ⟨"TON price up today", "https://a.example/1",
      "details about toncoin"⟩ ⟨"", "", ""⟩ [] []).1.mpr
      ⟨by decide, by decide, by simp [initState]⟩
  · have h := (claim5_thm initState ⟨"sports results", "https://a.example/2",
      "a match report"⟩ ⟨"", "", ""⟩ [] []).1
    cases hb : (process_entry initState ⟨"sports results", "https://a.example/2",
      "a match report"⟩).1.isSome
    · rfl
    · exact absurd (h.mp hb).1 (by decide)
  · exact (claim5_thm initState ⟨"", "", ""⟩ ⟨"", "", ""⟩ [] []).2.2

/-- A nonempty pattern match decomposes the list. -/
theorem beginsWith_decomp :
    ∀ (q l : List Char), beginsWith l q = true → q ++ l.drop q.length = l := by
  intro q
  induction q with
  | nil => intro l _; simp
  | cons p ps ih =>
    intro l hb
    cases l with
    | nil => simp [beginsWith] at hb
    | cons c cs =>
      simp only [beginsWith, Bool.and_eq_true, decide_eq_true_eq] at hb
      simp only [List.cons_append, List.length_cons, List.drop_succ_cons]
      rw [hb.1, ih cs hb.2]

/-- A character outside the pattern survives replacement (with the skip
counter pointing past pattern characters already consumed). -/
theorem replAux_mem (x p : Char) (ps rep : List Char) (hx : x ∉ p :: ps) :
    ∀ (l : List Char) (skip : Nat), x ∈ l.drop skip →
      x ∈ replAux p ps rep l skip := by
  intro l
  induction l with
  | nil => intro skip h; simp at h
  | cons c rest ih =>
    intro skip h
    cases skip with
    | succ s =>
      rw [List.drop_succ_cons] at h
      exact ih s h
    | zero =>
      rw [List.drop_zero] at h
      by_cases hb : beginsWith (c :: rest) (p :: ps) = true
      · have hcp : c = p ∧ beginsWith rest ps = true := by
          simpa [beginsWith] using hb
        have hxc : x ≠ c := fun hh => hx (hh ▸ hcp.1 ▸ List.mem_cons_self p ps)
        have hxr : x ∈ rest := by
          rcases List.mem_cons.mp h with h1 | h1
          · exact absurd h1 hxc
          · exact h1
        have hdec := beginsWith_decomp ps rest hcp.2
        have hxdrop : x ∈ rest.drop ps.length := by
          rcases List.mem_append.mp (hdec ▸ hxr) with h1 | h1
          · exact absurd h1 (fun hh => hx (List.mem_cons_of_mem p hh))
          · exact h1
        simp only [replAux, hb, if_true]
        exact List.mem_append_right rep (ih ps.length hxdrop)
      · simp only [replAux, hb, if_false]
        rcases List.mem_cons.mp h with h1 | h1
        · exact h1 ▸ List.mem_cons_self c _
        · exact List.mem_cons_of_mem c (ih 0 (by simpa using h1))

/-- A character outside the pattern survives `str.replace`. -/
theorem pyReplace_mem (x : Char) (l : List Char) (pat rep : String)
    (hx : x ∈ l) (hpat : x ∉ pat.data) : x ∈ pyReplace l pat rep := by
  unfold pyReplace
  cases hp : pat.data with
  | nil => exact hx
  | cons q qs =>
    rw [hp] at hpat
    exact replAux_mem x q qs rep.data hpat l 0 (by simpa using hx)

/-- The split worker never returns the empty list once its accumulator
is nonempty. -/
theorem splitWsAux_ne_nil_of_cur :
    ∀ (l cur : List Char), cur ≠ [] → splitWsAux l cur ≠ [] := by
  intro l
  induction l with
  | nil => intro cur hc; simp [splitWsAux, hc]
  | cons c rest ih =>
    intro cur hc
    simp only [splitWsAux]
    by_cases hsp : pyIsSpace c
    · simp [hsp, hc]
    · simp only [hsp, Bool.false_eq_true, if_false]
      exact ih (c :: cur) (by simp)

/-- A list containing a non-whitespace character splits into at least
one word. -/
theorem splitWsAux_ne_nil (x : Char) (hx2 : pyIsSpace x = false) :
    ∀ (l cur : List Char), x ∈ l → splitWsAux l cur ≠ [] := by
  intro l
  induction l with
  | nil => intro cur h; simp at h
  | cons c rest ih =>
    intro cur h
    simp only [splitWsAux]
    by_cases hsp : pyIsSpace c
    · have hxr : x ∈ rest := by
        rcases List.mem_cons.mp h with h1 | h1
        · rw [h1] at hx2; rw [hx2] at hsp; exact absurd hsp (by simp)
        · exact h1
      by_cases hc : cur = []
      · simp only [hsp, if_true, hc, if_true]
        exact ih [] hxr
      · simp [hsp, hc]
    · simp only [hsp, Bool.false_eq_true, if_false]
      exact splitWsAux_ne_nil_of_cur rest (c :: cur) (by simp)

/-- Claim C8 counterexample: even an input made entirely of stopwords
keeps its separator token, so the joined key is `"_"`, never the empty
string — zero surviving tokens cannot occur. -/
theorem claim8_counterexample :
    contentWords "ton" "news" ≠ [] ∧ textKey "ton" "news" = ['_'] ∧
      textKey "ton" "news" ≠ [] := by
  refine ⟨by decide, by decide, by decide⟩

/-- Claim C8 (amended): the `_` joining `title` and `content` survives
lowercasing, stopword removal and splitting, so the token list is never
empty (the empty-key fingerprint is unreachable); inputs whose entire
surviving token list is the lone separator `"_"` all collide on the
fingerprint of `"_"`, which is also the fingerprint of the
empty-title/empty-content input. -/
theorem claim8_thm (t c : String) :
    contentWords t c ≠ [] ∧
    (contentWords t c = [['_']] →
      get_content_hash t c = get_content_hash "" "") := by
  constructor
  · have h0 : '_' ∈ combinedLower t c := by
      unfold combinedLower pyLower
      exact List.mem_map.mpr ⟨'_', by simp, by decide⟩
    have h1 : '_' ∈ removeStops (combinedLower t c) := by
      simp only [removeStops, stopWords, List.foldl]
      refine pyReplace_mem '_' _ _ _ (pyReplace_mem '_' _ _ _
        (pyReplace_mem '_' _ _ _ (pyReplace_mem '_' _ _ _
        (pyReplace_mem '_' _ _ _ (pyReplace_mem '_' _ _ _
        (pyReplace_mem '_' _ _ _ (pyReplace_mem '_' _ _ _
        (pyReplace_mem '_' _ _ _ (pyReplace_mem '_' _ _ _
          h0 (by decide)) (by decide)) (by decide)) (by decide))
          (by decide)) (by decide)) (by decide)) (by decide))
          (by decide)) (by decide)
    have h2 : splitWs (removeStops (combinedLower t c)) ≠ [] :=
      splitWsAux_ne_nil '_' (by decide) _ [] h1
    unfold contentWords
    cases hsp : splitWs (removeStops (combinedLower t c)) with
    | nil => exact absurd hsp h2
    | cons w ws => simp
  · intro h
    unfold get_content_hash textKey
    rw [h]
    rw [show contentWords "" "" = [['_']] from by decide]

theorem claim8_witness :
    contentWords "ton" "news" ≠ [] ∧
    get_content_hash "ton" "news" = get_content_hash "" "" :=
  ⟨(claim8_thm "ton" "news").1, (claim8_thm "ton" "news").2 (by decide)⟩
/-- String eta: rebuilding a string from its data gives it back. -/
theorem string_eta (s : String) : String.mk s.data = s :=
  string_data_ext _ _ rfl

/-- Parsing the escaped body of a string recovers it, leaving whatever
follows the closing quote. -/
theorem parseJStrBody_escape :
    ∀ (s k : List Char), parseJStrBody (jsonEscape s ++ '"' :: k) = some (s, k) := by
  intro s
  induction s with
  | nil =>
    intro k
    show parseJStrBody ('"' :: k) = some ([], k)
    rw [parseJStrBody.eq_def]
    simp
  | cons c rest ih =>
    intro k
    by_cases hc : (c = '"' || c = '\\') = true
    · have h1 : jsonEscape (c :: rest) = '\\' :: c :: jsonEscape rest := by
        simp only [jsonEscape, hc, if_true]; rfl
      rw [h1]
      show parseJStrBody ('\\' :: c :: (jsonEscape rest ++ '"' :: k)) = _
      rw [parseJStrBody.eq_def]
      simp [hc, ih k]
    · have hc2 : ¬(c = '"') ∧ ¬(c = '\\') := by
        constructor <;> (intro hh; exact hc (by simp [hh]))
      have h1 : jsonEscape (c :: rest) = c :: jsonEscape rest := by
        simp only [jsonEscape, hc, if_false]; rfl
      rw [h1]
      show parseJStrBody (c :: (jsonEscape rest ++ '"' :: k)) = _
      rw [parseJStrBody.eq_def]
      simp [hc2.1, hc2.2, ih k]

/-- Parsing a rendered string literal recovers it. -/
theorem parseJString_render (s k : List Char) :
    parseJString (renderJString s ++ k) = some (s, k) := by
  show parseJString ('"' :: (jsonEscape s ++ ['"']) ++ k) = _
  rw [List.cons_append, List.append_assoc]
  show parseJString ('"' :: (jsonEscape s ++ ('"' :: k))) = _
  simp only [parseJString]
  exact parseJStrBody_escape s k

/-- The rendered items of a nonempty list are at least as long as the
list itself. -/
theorem renderItems_length :
    ∀ (l : List String) (k : List Char), l ≠ [] →
      l.length ≤ (joinL ", ".data (l.map fun s => renderJString s.data)
        ++ ']' :: k).length := by
  intro l
  induction l with
  | nil => intro k h; exact absurd rfl h
  | cons x ts ih =>
    intro k _
    cases ts with
    | nil => simp [joinL, renderJString]
    | cons y ys =>
      have hih := ih k (by simp)
      show (y :: ys).length + 1 ≤
        ((renderJString x.data ++ ", ".data ++
          joinL ", ".data ((y :: ys).map fun s => renderJString s.data))
          ++ ']' :: k).length
      simp only [List.append_assoc, List.length_append, List.length_cons,
        renderJString] at hih ⊢
      omega

/-- Parsing the rendered items of a nonempty list recovers the list and
the tail after the closing bracket. -/
theorem parseItems_render :
    ∀ (l : List String) (fuel : Nat) (k : List Char), l ≠ [] →
      l.length ≤ fuel →
      parseItems fuel (joinL ", ".data (l.map fun s => renderJString s.data)
        ++ ']' :: k) = some (l, k) := by
  intro l
  induction l with
  | nil => intro fuel k h _; exact absurd rfl h
  | cons x ts ih =>
    intro fuel k _ hfuel
    cases fuel with
    | zero => simp at hfuel
    | succ f =>
      cases ts with
      | nil =>
        show parseItems (f + 1) (renderJString x.data ++ ']' :: k) = _
        simp only [parseItems]
        rw [parseJString_render x.data (']' :: k)]
        simp [string_eta]
      | cons y ys =>
        have hih := ih f k (by simp) (by simpa using Nat.le_of_succ_le_succ hfuel)
        simp only [List.map_cons] at hih
        show parseItems (f + 1)
          (renderJString x.data ++ ", ".data ++
            joinL ", ".data ((y :: ys).map fun s => renderJString s.data)
            ++ ']' :: k) = _
        have hassoc : renderJString x.data ++ ", ".data ++
            joinL ", ".data ((y :: ys).map fun s => renderJString s.data)
            ++ ']' :: k =
          renderJString x.data ++ (',' :: ' ' ::
            (joinL ", ".data ((y :: ys).map fun s => renderJString s.data)
              ++ ']' :: k)) := by
          rw [show (", ".data : List Char) = [',', ' '] from rfl]
          simp [List.append_assoc]
        rw [hassoc]
        simp only [parseItems]
        rw [parseJString_render x.data
          (',' :: ' ' :: (joinL ", ".data ((y :: ys).map fun s =>
            renderJString s.data) ++ ']' :: k))]
        simp [hih, string_eta]

/-- Round-trip for the dumped string list. -/
theorem parseStrList_render (l : List String) :
    parseStrList (renderStrList l) = some l := by
  cases l with
  | nil => decide
  | cons x ts =>
    have hbody : ∃ Y : List Char,
        joinL ", ".data ((x :: ts).map fun s => renderJString s.data) =
          '"' :: Y := by
      cases ts with
      | nil => exact ⟨jsonEscape x.data ++ ['"'], rfl⟩
      | cons y ys =>
        refine ⟨(jsonEscape x.data ++ ['"']) ++ ", ".data ++
          joinL ", ".data ((y :: ys).map fun s => renderJString s.data), ?_⟩
        show (('"' :: (jsonEscape x.data ++ ['"'])) ++ ", ".data ++ _) = _
        simp [List.cons_append, List.append_assoc]
    obtain ⟨Y, hY⟩ := hbody
    have hit := parseItems_render (x :: ts)
      ((('"' :: Y) ++ [']']).length) [] (by simp) ?_
    · rw [hY] at hit
      simp only [List.cons_append] at hit
      show parseStrList ('[' :: (joinL ", ".data ((x :: ts).map fun s =>
        renderJString s.data) ++ [']'])) = _
      simp only [parseStrList, List.take, List.drop]
      rw [hY]
      have hne : ¬('"' :: (Y ++ [']']) = [']']) := by simp
      simp only [List.cons_append]
      rw [if_pos trivial, if_neg hne, hit]
      simp
    · have hlen := renderItems_length (x :: ts) [] (by simp)
      rw [hY] at hlen
      simpa using hlen

/-- The rendered pairs of a nonempty map are at least as long as the
map itself. -/
theorem renderPairs_length :
    ∀ (m : List (String × String)) (k : List Char), m ≠ [] →
      m.length ≤ (joinL ", ".data (m.map fun kv =>
        renderJString kv.1.data ++ ": ".data ++ renderJString kv.2.data)
        ++ rbrace :: k).length := by
  intro m
  induction m with
  | nil => intro k h; exact absurd rfl h
  | cons x ts ih =>
    intro k _
    cases ts with
    | nil => simp [joinL, renderJString]
    | cons y ys =>
      have hih := ih k (by simp)
      show (y :: ys).length + 1 ≤
        ((renderJString x.1.data ++ ": ".data ++ renderJString x.2.data
          ++ ", ".data ++
          joinL ", ".data ((y :: ys).map fun kv =>
            renderJString kv.1.data ++ ": ".data ++ renderJString kv.2.data))
          ++ rbrace :: k).length
      simp only [List.append_assoc, List.length_append, List.length_cons,
        renderJString] at hih ⊢
      omega

/-- Parsing the rendered pairs of a nonempty map recovers the map. -/
theorem parsePairs_render :
    ∀ (m : List (String × String)) (fuel : Nat) (k : List Char), m ≠ [] →
      m.length ≤ fuel →
      parsePairs fuel (joinL ", ".data (m.map fun kv =>
        renderJString kv.1.data ++ ": ".data ++ renderJString kv.2.data)
        ++ rbrace :: k) = some (m, k) := by
  intro m
  induction m with
  | nil => intro fuel k h _; exact absurd rfl h
  | cons x ts ih =>
    intro fuel k _ hfuel
    cases fuel with
    | zero => simp at hfuel
    | succ f =>
      cases ts with
      | nil =>
        show parsePairs (f + 1)
          (renderJString x.1.data ++ ": ".data ++ renderJString x.2.data
            ++ rbrace :: k) = _
        have hassoc : renderJString x.1.data ++ ": ".data ++
            renderJString x.2.data ++ rbrace :: k =
          renderJString x.1.data ++ (':' :: ' ' ::
            (renderJString x.2.data ++ rbrace :: k)) := by
          rw [show (": ".data : List Char) = [':', ' '] from rfl]
          simp [List.append_assoc]
        rw [hassoc]
        simp only [parsePairs]
        rw [parseJString_render x.1.data
          (':' :: ' ' :: (renderJString x.2.data ++ rbrace :: k))]
        simp [parseJString_render, string_eta]
      | cons y ys =>
        have hih := ih f k (by simp) (by simpa using Nat.le_of_succ_le_succ hfuel)
        simp only [List.map_cons, List.append_assoc, List.cons_append,
          List.nil_append] at hih
        show parsePairs (f + 1)
          (renderJString x.1.data ++ ": ".data ++ renderJString x.2.data
            ++ ", ".data ++
            joinL ", ".data ((y :: ys).map fun kv =>
              renderJString kv.1.data ++ ": ".data ++ renderJString kv.2.data)
            ++ rbrace :: k) = _
        have hassoc : renderJString x.1.data ++ ": ".data ++
            renderJString x.2.data ++ ", ".data ++
            joinL ", ".data ((y :: ys).map fun kv =>
              renderJString kv.1.data ++ ": ".data ++ renderJString kv.2.data)
            ++ rbrace :: k =
          renderJString x.1.data ++ (':' :: ' ' ::
            (renderJString x.2.data ++ ',' :: ' ' ::
              (joinL ", ".data ((y :: ys).map fun kv =>
                renderJString kv.1.data ++ ": ".data ++ renderJString kv.2.data)
                ++ rbrace :: k))) := by
          rw [show (": ".data : List Char) = [':', ' '] from rfl,
            show (", ".data : List Char) = [',', ' '] from rfl]
          simp [List.append_assoc]
        rw [hassoc]
        simp only [parsePairs]
        rw [parseJString_render x.1.data
          (':' :: ' ' :: (renderJString x.2.data ++ ',' :: ' ' ::
            (joinL ", ".data ((y :: ys).map fun kv =>
              renderJString kv.1.data ++ ": ".data ++ renderJString kv.2.data)
              ++ rbrace :: k)))]
        have hne : ¬([','] = [rbrace]) := by decide
        simp [parseJString_render, hih, hne, string_eta]

/-- Round-trip for the dumped string map. -/
theorem parseStrMap_render (m : List (String × String)) :
    parseStrMap (renderStrMap m) = some m := by
  cases m with
  | nil => decide
  | cons x ts =>
    have hbody : ∃ Y : List Char,
        joinL ", ".data ((x :: ts).map fun kv =>
          renderJString kv.1.data ++ ": ".data ++ renderJString kv.2.data) =
          '"' :: Y := by
      cases ts with
      | nil =>
        refine ⟨(jsonEscape x.1.data ++ ['"']) ++ ": ".data ++
          renderJString x.2.data, ?_⟩
        show ('"' :: (jsonEscape x.1.data ++ ['"'])) ++ ": ".data ++ _ = _
        simp [List.cons_append, List.append_assoc]
      | cons y ys =>
        refine ⟨(jsonEscape x.1.data ++ ['"']) ++ ": ".data ++
          renderJString x.2.data ++ ", ".data ++
          joinL ", ".data ((y :: ys).map fun kv =>
            renderJString kv.1.data ++ ": ".data ++ renderJString kv.2.data), ?_⟩
        show ('"' :: (jsonEscape x.1.data ++ ['"'])) ++ ": ".data ++ _ ++
          ", ".data ++ _ = _
        simp [List.cons_append, List.append_assoc]
    obtain ⟨Y, hY⟩ := hbody
    have hit := parsePairs_render (x :: ts)
      ((('"' :: Y) ++ [rbrace]).length) [] (by simp) ?_
    · rw [hY] at hit
      simp only [List.cons_append] at hit
      show parseStrMap (lbrace :: (joinL ", ".data ((x :: ts).map fun kv =>
        renderJString kv.1.data ++ ": ".data ++ renderJString kv.2.data)
        ++ [rbrace])) = _
      simp only [parseStrMap, List.take, List.drop]
      rw [hY]
      have hne : ¬('"' :: (Y ++ [rbrace]) = [rbrace]) := by
        intro hh
        have := List.head_eq_of_cons_eq hh
        exact absurd this (by decide)
      simp only [List.cons_append]
      rw [if_pos trivial, if_neg hne, hit]
      simp
    · have hlen := renderPairs_length (x :: ts) [] (by simp)
      rw [hY] at hlen
      simpa using hlen

/-- Claim C9: saving the fingerprint set, the seen-link set, and the
user-language map, then reloading each from its file text, yields the
same collection.  The hypotheses restrict the payloads to the
printable-ASCII fragment on which the JSON model matches `json.dump`
byte for byte (the stored values — hex fingerprints, URLs, language
tags, decimal user ids — live there). -/
theorem claim9_thm (hashes sent : List String)
    (m : List (String × String)) (uid : Nat) (lang : String)
    (h1 : hashes.all jsonPlainStr = true)
    (h2 : sent.all jsonPlainStr = true)
    (h3 : m.all (fun kv => jsonPlainStr kv.1 && jsonPlainStr kv.2) = true)
    (h4 : jsonPlainStr lang = true) :
    load_content_hashes (some (save_content_hashes hashes)) = hashes ∧
    load_sent_news (some (save_sent_news sent)) = sent ∧
    load_user_languages (some ((save_user_language m uid lang).2)) =
      (save_user_language m uid lang).1 := by
  refine ⟨?_, ?_, ?_⟩
  · simp [load_content_hashes, save_content_hashes, parseStrList_render]
  · simp [load_sent_news, save_sent_news, parseStrList_render]
  · simp [load_user_languages, save_user_language, parseStrMap_render]

theorem claim9_witness :
    load_content_hashes (some (save_content_hashes ["829f5ef7faeb"])) =
      ["829f5ef7faeb"] ∧
    load_sent_news (some (save_sent_news
      ["https://a.example/1", "https://b.example/2"])) =
      ["https://a.example/1", "https://b.example/2"] ∧
    load_user_languages (some ((save_user_language [("42", "ru")] 7 "en").2)) =
      (save_user_language [("42", "ru")] 7 "en").1 := by
  exact claim9_thm ["829f5ef7faeb"]
    ["https://a.example/1", "https://b.example/2"] [("42", "ru")] 7 "en"
    (by decide) (by decide) (by decide) (by decide)

end TonBot
